import Mathlib

/-!
Shallow embedding of `juniper_codegen/src/derive_object_impl.rs` (the
`#[gql_object]` procedural macro) and proofs about it.

The Rust code consumes a `syn` abstract syntax tree of an `impl` block and
produces a token stream holding (a) the re-emitted `impl` block and (b) a
generated `juniper::GraphQLType` implementation.  The embedding models the
`syn` data the code actually inspects (type paths with generic arguments,
attribute meta items, method signatures) and the shape of the emitted code
(field-registration statements, dispatch branches, the terminal panic).
Rust panics (`panic!`, `expect`, out-of-bounds indexing) are modelled as
`Except.error` with the corresponding message.
-/

namespace JuniperGen

/-! ## The syn type grammar, as far as the code inspects it

`syn::Type` is modelled by `Ty`: a path type (a list of segments, each with
optional angle-bracketed generic arguments), a reference type (optional
lifetime, mutability flag, element type), or an opaque leaf for every other
type form.  `TypePath`'s qualified-self is not modelled (the code never
reads it).  Equality `tyEq` mirrors the structural `PartialEq` that the
Rust code uses in `ty == &parsed`.
-/

mutual

inductive Ty : Type where
  | path : List Seg → Ty
  | ref : Option String → Bool → Ty → Ty
  | other : String → Ty
  deriving Repr

inductive Seg : Type where
  | mk : String → PathArgs → Seg
  deriving Repr

inductive PathArgs : Type where
  | none : PathArgs
  | angle : List GenArg → PathArgs
  deriving Repr

inductive GenArg : Type where
  | lifetime : String → GenArg
  | ty : Ty → GenArg
  | binding : String → Ty → GenArg
  deriving Repr

end

mutual

/-- Structural equality on types, mirroring `syn`'s derived `PartialEq`
used by `ty == &parsed` in the source. -/
def tyEq : Ty → Ty → Bool
  | Ty.path a, Ty.path b => segListEq a b
  | Ty.ref l1 m1 e1, Ty.ref l2 m2 e2 => l1 == l2 && m1 == m2 && tyEq e1 e2
  | Ty.other a, Ty.other b => a == b
  | _, _ => false
termination_by structural t => t

/-- Structural equality on segment lists. -/
def segListEq : List Seg → List Seg → Bool
  | [], [] => true
  | a :: as, b :: bs => segEq a b && segListEq as bs
  | _, _ => false
termination_by structural l => l

/-- Structural equality on path segments. -/
def segEq : Seg → Seg → Bool
  | Seg.mk i1 a1, Seg.mk i2 a2 => i1 == i2 && pathArgsEq a1 a2
termination_by structural s => s

/-- Structural equality on path arguments. -/
def pathArgsEq : PathArgs → PathArgs → Bool
  | PathArgs.none, PathArgs.none => true
  | PathArgs.angle a, PathArgs.angle b => genArgListEq a b
  | _, _ => false
termination_by structural p => p

/-- Structural equality on generic-argument lists. -/
def genArgListEq : List GenArg → List GenArg → Bool
  | [], [] => true
  | a :: as, b :: bs => genArgEq a b && genArgListEq as bs
  | _, _ => false
termination_by structural l => l

/-- Structural equality on generic arguments. -/
def genArgEq : GenArg → GenArg → Bool
  | GenArg.lifetime a, GenArg.lifetime b => a == b
  | GenArg.ty a, GenArg.ty b => tyEq a b
  | GenArg.binding i1 t1, GenArg.binding i2 t2 => i1 == i2 && tyEq t1 t2
  | _, _ => false
termination_by structural g => g

end

/-! ## Attribute meta items (`syn::Meta`) -/

/-- `syn::Lit`, restricted to the forms the code distinguishes. -/
inductive Lit : Type where
  | str : String → Lit
  | int : Int → Lit
  | boolean : Bool → Lit
  deriving Repr

mutual

/-- `syn::Meta`. -/
inductive Meta : Type where
  | word : String → Meta
  | list : String → List NestedMeta → Meta
  | nameValue : String → Lit → Meta
  deriving Repr

/-- `syn::NestedMeta`. -/
inductive NestedMeta : Type where
  | meta : Meta → NestedMeta
  | lit : Lit → NestedMeta
  deriving Repr

end

/-- A `syn::Attribute`, modelled by the result of `attr.interpret_meta()`
(the only view of an attribute the code ever takes). -/
structure Attribute : Type where
  meta : Option Meta
  deriving Repr

/-! ## Patterns, function arguments, signatures, impl items -/

/-- A `syn::Pat`, restricted to a simple identifier, a tuple of simple
identifiers, or a wildcard (enough to distinguish the "plain named
parameter" form from destructuring forms). -/
inductive Pat : Type where
  | ident : String → Pat
  | tuple : List String → Pat
  | wild : Pat
  deriving DecidableEq, Repr

/-- `syn::FnArg` (syn 0.14): `SelfRef`, `SelfValue`, `Captured(pat: ty)`,
`Inferred(pat)`, `Ignored(ty)`. -/
inductive FnArg : Type where
  | selfRef : FnArg
  | selfValue : FnArg
  | captured : Pat → Ty → FnArg
  | inferred : Pat → FnArg
  | ignored : Ty → FnArg
  deriving Repr

/-- `syn::ReturnType`. -/
inductive ReturnType : Type where
  | default : ReturnType
  | ty : Ty → ReturnType
  deriving Repr

/-- A method signature: the identifier plus the declaration's inputs and
output (`sig.ident`, `sig.decl.inputs`, `sig.decl.output`). -/
structure MethodSig : Type where
  ident : String
  inputs : List FnArg
  output : ReturnType
  deriving Repr

/-- A `syn::ImplItem`.  A method carries its attributes, its signature and
an opaque body; the other item forms only need to be distinguishable. -/
inductive ImplItem : Type where
  | constItem : String → ImplItem
  | macItem : String → ImplItem
  | verbatimItem : String → ImplItem
  | typeItem : String → ImplItem
  | method : List Attribute → MethodSig → String → ImplItem
  deriving Repr

/-- A `syn::ItemImpl`.  The `impl` and brace tokens are pure punctuation
and omitted; the defaultness and safety markers are carried through
opaquely in `modifiers`, as are `generics` and the optional trait
reference in their fields. -/
structure ItemImpl : Type where
  attrs : List Attribute
  modifiers : String
  generics : String
  traitRef : Option String
  selfTy : Ty
  items : List ImplItem
  deriving Repr

/-- A `syn::Item`: an impl block or anything else. -/
inductive Item : Type where
  | impl : ItemImpl → Item
  | otherItem : String → Item
  deriving Repr

/-! ## Directive extraction (`get_attr_map`, lines 9-38) -/

/-- Insert into a string-to-string map, replacing an existing binding
(`HashMap::insert` semantics, with the map modelled as an association
list). -/
def mapInsert (m : List (String × String)) (k v : String) : List (String × String) :=
  match m with
  | [] => [(k, v)]
  | (k', v') :: rest => if k' = k then (k, v) :: rest else (k', v') :: mapInsert rest k v

/-- Look a key up in the map (`HashMap::get` followed by `clone`). -/
def mapGet (m : List (String × String)) (k : String) : Option String :=
  (m.find? (fun p => p.1 = k)).map Prod.snd

/-- `get_attr_map`: `None` unless `interpret_meta` yields a `Meta::List`;
otherwise the list's identifier together with a map collecting every
nested `Meta::NameValue` whose literal is a plain string (all other
nested forms are skipped). -/
def get_attr_map (attr : Attribute) : Option (String × List (String × String)) :=
  match attr.meta with
  | Option.some (Meta.list id nested) =>
      Option.some (id,
        nested.foldl
          (fun acc nm =>
            match nm with
            | NestedMeta.meta (Meta.nameValue k (Lit.str v)) => mapInsert acc k v
            | _ => acc)
          [])
  | _ => Option.none

/-- `attrs.iter().filter_map(get_attr_map).find(|(name, _)| name == "graphql")`,
keeping only the map. -/
def findGraphqlMap (attrs : List Attribute) : Option (List (String × String)) :=
  ((attrs.filterMap get_attr_map).find? (fun p => p.1 = "graphql")).map Prod.snd

/-! ## Context resolution (lines 57-89) -/

/-- The panic/expect message used when no `Context` binding is found
(lines 79 and 81). -/
def gqlObjectContextErr : String :=
  "#[gql_object] requires context to be specified with `impl MyType<Context=MyContext>`"

/-- The panic message when the macro is applied to a non-impl item
(line 54). -/
def gqlObjectOnlyImplErr : String :=
  "#[gql_object] Can only be applied to impl blocks"

/-- The panic message when the impl's self type is not a path type
(line 88). -/
def gqlObjectOnlyStructErr : String :=
  "#[gql_object] only works with struct impls"

/-- The first `Context` binding among a segment's generic arguments
(`args.iter().filter_map(..Binding named Context..).next()`, lines 69-78). -/
def findContextBinding (args : List GenArg) : Option Ty :=
  args.findSome? fun a =>
    match a with
    | GenArg.binding id t => if id = "Context" then Option.some t else Option.none
    | _ => Option.none

/-- The `Context` binding carried by one path segment, if any. -/
def segContextBinding : Seg → Option Ty
  | Seg.mk _ (PathArgs.angle gargs) => findContextBinding gargs
  | Seg.mk _ _ => Option.none

/-- Whether a segment carries a `Context` binding at all. -/
def segHasContextBinding : Seg → Bool
  | Seg.mk _ (PathArgs.angle gargs) =>
      gargs.any fun a =>
        match a with
        | GenArg.binding id _ => id = "Context"
        | _ => false
  | Seg.mk _ _ => false

/-- Lines 57-85: take the last path segment (`expect` on an empty path),
require angle-bracketed arguments holding a `Context` binding, return the
path with the last segment's arguments cleared
(`segment.arguments = PathArguments::None`) together with the bound
context type. -/
def resolveSelfTy (segs : List Seg) : Except String (List Seg × Ty) :=
  match segs.getLast? with
  | Option.none => Except.error "Paths can't have 0 segments"
  | Option.some (Seg.mk id args) =>
    match args with
    | PathArgs.angle gargs =>
      match findContextBinding gargs with
      | Option.some ctx => Except.ok (segs.dropLast ++ [Seg.mk id PathArgs.none], ctx)
      | Option.none => Except.error gqlObjectContextErr
    | _ => Except.error gqlObjectContextErr

/-! ## Member admission (lines 97-151) -/

/-- `parse(quote!(&Executor<#context>))` (line 97): a shared reference,
no lifetime, no mutability, to `Executor` with the context as its one
angle-bracketed type argument. -/
def executorRef (context : Ty) : Ty :=
  Ty.ref Option.none false
    (Ty.path [Seg.mk "Executor" (PathArgs.angle [GenArg.ty context])])

/-- Lines 125-131: the first input is accepted exactly when it is a
`Captured` argument whose declared type is a reference equal (structural
`==`) to the parsed `&Executor<context>` type. -/
def firstMatches (parsed : Ty) (arg : FnArg) : Bool :=
  match arg with
  | FnArg.captured _ t =>
    match t with
    | Ty.ref l m e => tyEq (Ty.ref l m e) parsed
    | _ => false
  | _ => false

/-- Whether a `ReturnType` is an explicit type. -/
def hasExplicitRet : ReturnType → Bool
  | ReturnType.ty _ => true
  | ReturnType.default => false

/-- Whether a function argument is in `Captured` (pattern-colon-type)
form. -/
def isCapturedArg : FnArg → Bool
  | FnArg.captured _ _ => true
  | _ => false

/-- The panic message of line 144 (`panic!("invalid arg {:?}", stringify!(arg))`;
`stringify!(arg)` is the literal token text `arg`). -/
def invalidArgErr : String := "invalid arg \"arg\""

/-- The Rust panic message raised by `sig.decl.inputs[0]` on an empty
input list (line 125). -/
def indexOutOfBoundsErr : String := "index out of bounds: the len is 0 but the index is 0"

/-- Lines 140-146: collect every non-first argument as a (pattern, type)
pair; any argument not in `Captured` form panics. -/
def collectArgs : List FnArg → Except String (List (Pat × Ty))
  | [] => Except.ok []
  | arg :: rest =>
    match arg with
    | FnArg.captured p t => (collectArgs rest).map (fun r => (p, t) :: r)
    | _ => Except.error invalidArgErr

/-- The intermediate field model pushed onto `fns` (line 148). -/
structure FieldFn : Type where
  ident : String
  args : List (Pat × Ty)
  ret : Ty
  description : Option String
  deprecated : Option String
  deriving Repr

/-- Lines 101-151, one loop iteration: process one impl item, returning
the item as it appears in the re-emitted block (a method has its
attributes cleared, line 123) together with the field it contributes, if
any.  `Const`, `Macro`, `Verbatim` and `Type` items panic; a method whose
first input is missing panics via out-of-bounds indexing; a method whose
first input fails the executor-reference shape or whose return type is
absent is skipped; a later non-`Captured` argument panics. -/
def processItem (parsed : Ty) : ImplItem → Except String (ImplItem × Option FieldFn)
  | ImplItem.constItem _ => Except.error "Unexpected const item"
  | ImplItem.macItem _ => Except.error "Unexpected macro item"
  | ImplItem.verbatimItem _ => Except.error "Unexpected verbatim item"
  | ImplItem.typeItem _ => Except.error "Unexpected type item"
  | ImplItem.method attrs sig body =>
    let dd :=
      match findGraphqlMap attrs with
      | Option.some m => (mapGet m "description", mapGet m "deprecated")
      | Option.none => (Option.none, Option.none)
    let outItem := ImplItem.method [] sig body
    match sig.inputs with
    | [] => Except.error indexOutOfBoundsErr
    | first :: rest =>
      if firstMatches parsed first then
        match sig.output with
        | ReturnType.ty ret =>
          (collectArgs rest).map fun args =>
            (outItem,
             Option.some
               { ident := sig.ident, args := args, ret := ret,
                 description := dd.1, deprecated := dd.2 })
        | ReturnType.default => Except.ok (outItem, Option.none)
      else Except.ok (outItem, Option.none)

/-- The whole `for item in &mut items` loop: the re-emitted items in
order, and the accepted fields in declaration order. -/
def processItems (parsed : Ty) : List ImplItem → Except String (List ImplItem × List FieldFn)
  | [] => Except.ok ([], [])
  | it :: rest =>
    match processItem parsed it with
    | Except.error e => Except.error e
    | Except.ok r =>
      match processItems parsed rest with
      | Except.error e => Except.error e
      | Except.ok rr =>
        Except.ok (r.1 :: rr.1,
          match r.2 with
          | Option.some f => f :: rr.2
          | Option.none => rr.2)

/-! ## The dual emitter (lines 165-274)

The emitted token streams are modelled structurally.  The generated code
never computes a converted name itself: it emits a call
`juniper::to_camel_case(stringify!(x))`, modelled by the symbolic
`NameExpr.camelCase x` whose argument is the exact source text handed to
the casing function.
-/

/-- A name expression in the emitted code:
`juniper::to_camel_case(stringify!(s))`. -/
inductive NameExpr : Type where
  | camelCase : String → NameExpr
  deriving DecidableEq, Repr

/-- `stringify!` of a pattern, as the Rust tokenizer renders it. -/
def patStringify : Pat → String
  | Pat.ident s => s
  | Pat.tuple elems => "(" ++ String.intercalate ", " elems ++ ")"
  | Pat.wild => "_"

/-- One emitted field-registration statement (lines 188-216):
`fields.push(registry.field_convert::<ret, _, Self::Context>(name, info)
.argument(..)* .description(..)? .deprecation(..)?)`. -/
structure RegisterStmt : Type where
  fieldName : NameExpr
  retTy : Ty
  args : List (NameExpr × Ty)
  description : Option String
  deprecation : Option String
  deriving Repr

/-- Lines 188-216: build the registration statement of one field. -/
def mkRegisterStmt (f : FieldFn) : RegisterStmt :=
  { fieldName := NameExpr.camelCase f.ident
  , retTy := f.ret
  , args := f.args.map (fun a => (NameExpr.camelCase (patStringify a.1), a.2))
  , description := f.description
  , deprecation := f.deprecated }

/-- One emitted argument extraction inside a dispatch branch (line 168):
`let pat: ty = args.get(&to_camel_case(stringify!(pat))).expect(..)`. -/
structure ArgGet : Type where
  pat : Pat
  key : NameExpr
  ty : Ty
  deriving Repr

/-- One emitted dispatch branch (lines 174-185): an equality test on the
converted field name guarding the argument extractions and the call
`Self::callee(&executor, args..)`. -/
structure DispatchBranch : Type where
  fieldName : NameExpr
  gets : List ArgGet
  callee : String
  callArgs : List Pat
  deriving Repr

/-- Lines 165-186: build the dispatch branch of one field. -/
def mkDispatchBranch (f : FieldFn) : DispatchBranch :=
  { fieldName := NameExpr.camelCase f.ident
  , gets := f.args.map (fun a =>
      { pat := a.1, key := NameExpr.camelCase (patStringify a.1), ty := a.2 })
  , callee := f.ident
  , callArgs := f.args.map Prod.fst }

/-- The unconditional terminal branch of `resolve_field` (line 260):
`panic!("Field ... not found on type ...", field, "Mutation")`.  The
second format argument is the string literal the emitted code names as
the type. -/
structure TerminalBranch : Type where
  typeName : String
  deriving DecidableEq, Repr

/-- A statement of the emitted `resolve_field` body: a field branch or
the terminal panic. -/
inductive DispatchStmt : Type where
  | branch : DispatchBranch → DispatchStmt
  | terminal : TerminalBranch → DispatchStmt
  deriving Repr

/-- Everything `impl_gql_object` emits: the re-emitted impl block and the
generated `GraphQLType` implementation, the latter broken into the parts
the claims speak about.  `name` is the (single) path interpolated at
every `#name` slot of the `quote!` template. -/
structure Output : Type where
  implBlock : ItemImpl
  name : List Seg
  context : Ty
  typeDescription : Option (Option String)
  registerStmts : List RegisterStmt
  branches : List DispatchBranch
  terminal : TerminalBranch
  deriving Repr

/-- The emitted `resolve_field` body: every field branch in order,
followed by the terminal panic (lines 258-260). -/
def Output.dispatchStmts (o : Output) : List DispatchStmt :=
  o.branches.map DispatchStmt.branch ++ [DispatchStmt.terminal o.terminal]

/-- The type paths occurring in the emitted token stream: the re-emitted
impl block's self type, and the path interpolated at every `#name` slot
of the generated `GraphQLType` implementation (impl header, both
`stringify!(#name)` occurrences, `build_object_type::<#name>`). -/
def Output.generatedPaths (o : Output) : List (List Seg) :=
  (match o.implBlock.selfTy with
   | Ty.path segs => [segs]
   | _ => []) ++ [o.name]

/-- `impl_gql_object` (lines 40-275).  Each Rust panic becomes an
`Except.error` carrying the panic's message. -/
def impl_gql_object (ast : Item) : Except String Output :=
  match ast with
  | Item.otherItem _ => Except.error gqlObjectOnlyImplErr
  | Item.impl imp =>
    match imp.selfTy with
    | Ty.path segs =>
      match resolveSelfTy segs with
      | Except.error e => Except.error e
      | Except.ok rc =>
        match processItems (executorRef rc.2) imp.items with
        | Except.error e => Except.error e
        | Except.ok r =>
          Except.ok
            { implBlock :=
                { imp with attrs := [], selfTy := Ty.path rc.1, items := r.1 }
            , name := rc.1
            , context := rc.2
            , typeDescription := (findGraphqlMap imp.attrs).map (fun m => mapGet m "description")
            , registerStmts := r.2.map mkRegisterStmt
            , branches := r.2.map mkDispatchBranch
            , terminal := { typeName := "Mutation" } }
    | _ => Except.error gqlObjectOnlyStructErr

/-! ## Runtime semantics of the emitted dispatch routine -/

/-- Evaluate a name expression with a given casing function (the external
`juniper::to_camel_case`). -/
def nameExprEval (cc : String → String) : NameExpr → String
  | NameExpr.camelCase s => cc s

/-- Run the emitted `resolve_field` body on a runtime field name: the
branches are tried in order (each is an equality test returning on
match); falling through every branch reaches the terminal panic, whose
message interpolates the runtime field name and the emitted type-name
literal. -/
def runDispatch (cc : String → String) (branches : List DispatchBranch)
    (tb : TerminalBranch) (field : String) : Except String DispatchBranch :=
  match branches with
  | [] => Except.error ("Field " ++ field ++ " not found on type " ++ tb.typeName)
  | b :: rest =>
    if nameExprEval cc b.fieldName = field then Except.ok b
    else runDispatch cc rest tb field

/-- Render a path the way `stringify!` renders the emitted `#name`
(segment identifiers joined by `::`; no emitted name carries arguments on
its final segment). -/
def pathStringify (segs : List Seg) : String :=
  String.intercalate "::" (segs.map (fun s => match s with | Seg.mk id _ => id))

/-! ## Derived views used to state the claims -/

/-- The attribute-clearing applied to a method on line 123; other item
forms never reach the re-emitted block (they panic first). -/
def clearItemAttrs : ImplItem → ImplItem
  | ImplItem.method _ sig body => ImplItem.method [] sig body
  | it => it

/-- The field an item contributes, read off `processItem`. -/
def itemField (parsed : Ty) (it : ImplItem) : Option FieldFn :=
  match processItem parsed it with
  | Except.ok r => r.2
  | Except.error _ => Option.none

/-- The identifier of a method item. -/
def itemIdent : ImplItem → Option String
  | ImplItem.method _ sig _ => Option.some sig.ident
  | _ => Option.none

/-- The pattern of a `Captured` argument. -/
def capturedPat : FnArg → Option Pat
  | FnArg.captured p _ => Option.some p
  | _ => Option.none

/-- The declared non-first parameter patterns of a method item, in
declaration order. -/
def itemArgPats : ImplItem → Option (List Pat)
  | ImplItem.method _ sig _ => Option.some ((sig.inputs.drop 1).filterMap capturedPat)
  | _ => Option.none

/-- The admission test of lines 125-136, read directly off the item: a
method whose input list is non-empty, whose first input matches the
executor-reference shape and whose return type is explicit. -/
def isAcceptedMethod (parsed : Ty) : ImplItem → Bool
  | ImplItem.method _ sig _ =>
    match sig.inputs with
    | [] => false
    | first :: _ => firstMatches parsed first && hasExplicitRet sig.output
  | _ => false

/-- The identifiers of the accepted members, in declaration order. -/
def acceptedIdents (parsed : Ty) (items : List ImplItem) : List String :=
  items.filterMap fun it =>
    if isAcceptedMethod parsed it then itemIdent it else Option.none

/-- The non-first parameter patterns of the accepted members, in
declaration order. -/
def acceptedArgPats (parsed : Ty) (items : List ImplItem) : List (List Pat) :=
  items.filterMap fun it =>
    if isAcceptedMethod parsed it then itemArgPats it else Option.none

/-- Whether an `Except` value is a success. -/
def exceptIsOk : Except String (ImplItem × Option FieldFn) → Bool
  | Except.ok _ => true
  | Except.error _ => false

instance : Inhabited Ty := ⟨Ty.other ""⟩

instance : Inhabited ItemImpl :=
  ⟨{ attrs := [], modifiers := "", generics := ""
   , traitRef := Option.none, selfTy := Ty.other "", items := [] }⟩

instance : Inhabited TerminalBranch := ⟨{ typeName := "" }⟩

instance : Inhabited Output :=
  ⟨{ implBlock := default, name := [], context := Ty.other ""
   , typeDescription := Option.none, registerStmts := [], branches := []
   , terminal := default }⟩

/-- The output of a successful run, with a default for the error case
(used to build closed witness statements). -/
def outOf (e : Except String Output) : Output := e.toOption.getD default

/-! ## Concrete inputs -/

/-- The context type `Ctx`. -/
def ctxTy : Ty := Ty.path [Seg.mk "Ctx" PathArgs.none]

/-- The implementing type `Foo<Context = Ctx>`. -/
def fooSelfTy : Ty :=
  Ty.path [Seg.mk "Foo" (PathArgs.angle [GenArg.binding "Context" ctxTy])]

/-- The first parameter `executor: &Executor<Ctx>`. -/
def execArg : FnArg := FnArg.captured (Pat.ident "executor") (executorRef ctxTy)

/-- The type `String`. -/
def strTy : Ty := Ty.path [Seg.mk "String" PathArgs.none]

/-- The type `i32`. -/
def i32Ty : Ty := Ty.path [Seg.mk "i32" PathArgs.none]

/-- An impl block over `Foo<Context = Ctx>` with the given attributes and
items. -/
def mkImp (attrs : List Attribute) (items : List ImplItem) : ItemImpl :=
  { attrs := attrs, modifiers := "", generics := ""
  , traitRef := Option.none, selfTy := fooSelfTy, items := items }

/-- A `#[graphql(description = "d")]` attribute. -/
def attrGqlDescr : Attribute :=
  ⟨Option.some (Meta.list "graphql"
      [NestedMeta.meta (Meta.nameValue "description" (Lit.str "d"))])⟩

/-- A `#[graphql(context = "DirectiveCtx")]` attribute: the type-level
directive map binds `context` to `DirectiveCtx`. -/
def attrCtxDirective : Attribute :=
  ⟨Option.some (Meta.list "graphql"
      [NestedMeta.meta (Meta.nameValue "context" (Lit.str "DirectiveCtx"))])⟩

/-- The binding-provided context type `BindingCtx`. -/
def bindingCtxTy : Ty := Ty.path [Seg.mk "BindingCtx" PathArgs.none]

/-- C1 input (a): both an explicit `context` directive and a generic
`Context = BindingCtx` binding. -/
def exC1a : ItemImpl :=
  { attrs := [attrCtxDirective], modifiers := "", generics := ""
  , traitRef := Option.none
  , selfTy := Ty.path [Seg.mk "Foo" (PathArgs.angle [GenArg.binding "Context" bindingCtxTy])]
  , items := [] }

/-- C1 input (b): only the explicit `context` directive, no generic
binding. -/
def exC1b : ItemImpl :=
  { attrs := [attrCtxDirective], modifiers := "", generics := ""
  , traitRef := Option.none
  , selfTy := Ty.path [Seg.mk "Foo" PathArgs.none]
  , items := [] }

/-- A zero-parameter member `fn helper()`. -/
def zeroParamSig : MethodSig := { ident := "helper", inputs := [], output := ReturnType.default }

/-- C2 input: an impl block holding one zero-parameter member. -/
def exC2 : ItemImpl := mkImp [] [ImplItem.method [] zeroParamSig "body"]

/-- An accepted member `fn name(executor: &Executor<Ctx>) -> String`. -/
def nameSig : MethodSig := { ident := "name", inputs := [execArg], output := ReturnType.ty strTy }

/-- C5 input: one accepted member on type `Foo`. -/
def exC5 : ItemImpl := mkImp [] [ImplItem.method [] nameSig "body"]

/-- A helper member `fn helper2(&self) -> String`, skipped because its
first parameter is `&self`. -/
def helperSig : MethodSig :=
  { ident := "helper2", inputs := [FnArg.selfRef], output := ReturnType.ty strTy }

/-- C6 input: one annotated member that the admission check skips. -/
def exC6 : ItemImpl := mkImp [] [ImplItem.method [attrGqlDescr] helperSig "body"]

/-- A member `fn age(executor: &Executor<Ctx>, (a, b): Pair) -> i32`
whose second parameter destructures a tuple pattern. -/
def tupleArgSig : MethodSig :=
  { ident := "age"
  , inputs := [execArg,
      FnArg.captured (Pat.tuple ["a", "b"]) (Ty.path [Seg.mk "Pair" PathArgs.none])]
  , output := ReturnType.ty i32Ty }

/-- C7 input: one member with a tuple-pattern second parameter. -/
def exC7 : ItemImpl := mkImp [] [ImplItem.method [] tupleArgSig "body"]

/-- A member `fn bad(executor: &Executor<Ctx>, _: String) -> String`
whose second parameter is in `Ignored` form (`_: String`). -/
def badArgSig : MethodSig :=
  { ident := "bad", inputs := [execArg, FnArg.ignored strTy]
  , output := ReturnType.ty strTy }

/-- The end-to-end input of the spec's scenario: `getName(executor) -> String`,
`getAge(executor, unit: String) -> i32` (deprecated), and a skipped
helper. -/
def exE2E : ItemImpl :=
  mkImp [attrGqlDescr]
    [ ImplItem.method [] { ident := "getName", inputs := [execArg], output := ReturnType.ty strTy } "b1"
    , ImplItem.method
        [⟨Option.some (Meta.list "graphql"
            [NestedMeta.meta (Meta.nameValue "deprecated" (Lit.str "use v2"))])⟩]
        { ident := "getAge"
        , inputs := [execArg, FnArg.captured (Pat.ident "unit") strTy]
        , output := ReturnType.ty i32Ty } "b2"
    , ImplItem.method [] helperSig "b3" ]

/-! ## Helper lemmas -/

/-- Appending a single element puts it last. -/
theorem getLast?_append_singleton {α : Type} (xs : List α) (t : α) :
    (xs ++ [t]).getLast? = Option.some t := by
  simp [List.getLast?_concat]

/-- Dropping the last element of `xs ++ [t]` gives back `xs`. -/
theorem dropLast_append_singleton {α : Type} (xs : List α) (t : α) :
    (xs ++ [t]).dropLast = xs := by
  simp

/-- A successful `collectArgs` run means every input was `Captured`, with
the collected pairs in declaration order. -/
theorem collectArgs_ok_shape : ∀ {rest : List FnArg} {args : List (Pat × Ty)},
    collectArgs rest = Except.ok args →
    rest = args.map (fun pt => FnArg.captured pt.1 pt.2) := by
  intro rest
  induction rest with
  | nil =>
    intro args h
    simp only [collectArgs] at h
    cases h
    rfl
  | cons a rest ih =>
    intro args h
    cases a with
    | captured p t =>
      simp only [collectArgs] at h
      cases hc : collectArgs rest with
      | error e => rw [hc] at h; cases h
      | ok r =>
        rw [hc] at h
        cases h
        simp [ih hc]
    | selfRef => cases h
    | selfValue => cases h
    | inferred p => cases h
    | ignored t => cases h

/-- If every input is `Captured`, `collectArgs` succeeds. -/
theorem collectArgs_ok_of_captured : ∀ {rest : List FnArg},
    (∀ a ∈ rest, isCapturedArg a = true) →
    ∃ args, collectArgs rest = Except.ok args := by
  intro rest
  induction rest with
  | nil => intro _; exact ⟨[], rfl⟩
  | cons a rest ih =>
    intro hall
    have ha := hall a (List.mem_cons_self a rest)
    obtain ⟨args, hargs⟩ := ih (fun x hx => hall x (List.mem_cons_of_mem a hx))
    cases a with
    | captured p t =>
      exact ⟨(p, t) :: args, by simp [collectArgs, hargs, Except.map]⟩
    | selfRef => cases ha
    | selfValue => cases ha
    | inferred p => cases ha
    | ignored t => cases ha

/-- If some input is not `Captured`, `collectArgs` panics with the
`invalid arg` message. -/
theorem collectArgs_error_of_mem : ∀ {rest : List FnArg},
    (∃ a ∈ rest, isCapturedArg a = false) →
    collectArgs rest = Except.error invalidArgErr := by
  intro rest
  induction rest with
  | nil => rintro ⟨a, ha, _⟩; cases ha
  | cons a rest ih =>
    rintro ⟨b, hb, hbc⟩
    rcases List.mem_cons.mp hb with hba | hbm
    · subst hba
      cases b with
      | captured p t => cases hbc
      | selfRef => rfl
      | selfValue => rfl
      | inferred p => rfl
      | ignored t => rfl
    · cases a with
      | captured p t => simp [collectArgs, ih ⟨b, hbm, hbc⟩, Except.map]
      | selfRef => rfl
      | selfValue => rfl
      | inferred p => rfl
      | ignored t => rfl

/-- Mapping `Prod.fst` over collected pairs recovers the `filterMap` of
the patterns of the original `Captured` arguments. -/
theorem filterMap_capturedPat_map (args : List (Pat × Ty)) :
    (args.map (fun pt => FnArg.captured pt.1 pt.2)).filterMap capturedPat
      = args.map Prod.fst := by
  induction args with
  | nil => rfl
  | cons a args ih => simp [List.filterMap_cons, capturedPat, ih]

/-- A successful `processItem` run re-emits the item with cleared
attributes, and produces a field descriptor exactly for accepted
methods, carrying the member's identifier and its non-first parameter
patterns in declaration order. -/
theorem processItem_ok_spec {parsed : Ty} {it : ImplItem}
    {r : ImplItem × Option FieldFn} (h : processItem parsed it = Except.ok r) :
    r.1 = clearItemAttrs it
    ∧ r.2.map FieldFn.ident
        = (if isAcceptedMethod parsed it then itemIdent it else Option.none)
    ∧ r.2.map (fun f => f.args.map Prod.fst)
        = (if isAcceptedMethod parsed it then itemArgPats it else Option.none) := by
  cases it with
  | constItem s => cases h
  | macItem s => cases h
  | verbatimItem s => cases h
  | typeItem s => cases h
  | method attrs sig body =>
    simp only [processItem] at h
    cases hin : sig.inputs with
    | nil => rw [hin] at h; cases h
    | cons first rest =>
      rw [hin] at h
      dsimp only at h
      by_cases hf : firstMatches parsed first
      · rw [if_pos hf] at h
        cases hout : sig.output with
        | default =>
          rw [hout] at h
          cases h
          simp [clearItemAttrs, isAcceptedMethod, hin, hf, hout, hasExplicitRet]
        | ty ret =>
          rw [hout] at h
          cases hc : collectArgs rest with
          | error e => rw [hc] at h; cases h
          | ok args =>
            rw [hc] at h
            cases h
            have hacc : isAcceptedMethod parsed (ImplItem.method attrs sig body) = true := by
              simp [isAcceptedMethod, hin, hf, hout, hasExplicitRet]
            refine ⟨rfl, ?_, ?_⟩
            · simp [hacc, itemIdent]
            · have hshape := collectArgs_ok_shape hc
              subst hshape
              rw [hacc]
              simp only [if_true, itemArgPats, hin, Option.map_some, List.drop_one,
                List.tail_cons]
              exact congrArg Option.some (filterMap_capturedPat_map args).symm
      · rw [if_neg hf] at h
        cases h
        simp [clearItemAttrs, isAcceptedMethod, hin, hf]

/-- A successful `processItems` run re-emits every item with cleared
attributes, collects exactly the per-item fields in declaration order,
and means no item panicked. -/
theorem processItems_ok_spec {parsed : Ty} : ∀ {items : List ImplItem}
    {os : List ImplItem} {fns : List FieldFn},
    processItems parsed items = Except.ok (os, fns) →
    os = items.map clearItemAttrs
    ∧ fns = items.filterMap (itemField parsed)
    ∧ ∀ it ∈ items, exceptIsOk (processItem parsed it) = true := by
  intro items
  induction items with
  | nil =>
    intro os fns h
    simp only [processItems] at h
    cases h
    exact ⟨rfl, rfl, by intro it hit; cases hit⟩
  | cons it items ih =>
    intro os fns h
    simp only [processItems] at h
    cases hp : processItem parsed it with
    | error e => rw [hp] at h; cases h
    | ok r =>
      rw [hp] at h
      cases hps : processItems parsed items with
      | error e => rw [hps] at h; cases h
      | ok rr =>
        rw [hps] at h
        cases h
        obtain ⟨ho, hfns, hall⟩ :=
          ih (show processItems parsed items = Except.ok (rr.1, rr.2) from by rw [hps])
        obtain ⟨hr1, _, _⟩ := processItem_ok_spec hp
        refine ⟨by rw [List.map_cons, ← ho, hr1], ?_, ?_⟩
        · rw [List.filterMap_cons]
          have hfield : itemField parsed it = r.2 := by simp [itemField, hp]
          rw [hfield]
          cases r2 : r.2 with
          | none => simpa [r2] using hfns
          | some f => simpa [r2] using hfns
        · intro x hx
          rcases List.mem_cons.mp hx with hxa | hxm
          · subst hxa; simp [exceptIsOk, hp]
          · exact hall x hxm

/-- A panicking item makes the whole loop panic. -/
theorem processItems_error_of_mem {parsed : Ty} : ∀ {items : List ImplItem}
    {it : ImplItem} {e : String}, it ∈ items →
    processItem parsed it = Except.error e →
    ∃ e2, processItems parsed items = Except.error e2 := by
  intro items
  induction items with
  | nil => intro it e hmem; cases hmem
  | cons a items ih =>
    intro it e hmem herr
    rcases List.mem_cons.mp hmem with hma | hmm
    · subst hma
      exact ⟨e, by simp [processItems, herr]⟩
    · cases hp : processItem parsed a with
      | error e0 => exact ⟨e0, by simp [processItems, hp]⟩
      | ok r =>
        obtain ⟨e2, he2⟩ := ih hmm herr
        exact ⟨e2, by simp [processItems, hp, he2]⟩

/-- Inversion of a successful context resolution: the last segment
carried angle-bracketed arguments with a `Context` binding, and the
returned path is the input with that segment's arguments cleared. -/
theorem resolveSelfTy_ok {segs stripped : List Seg} {ctx : Ty}
    (h : resolveSelfTy segs = Except.ok (stripped, ctx)) :
    ∃ lastId gargs,
      segs.getLast? = Option.some (Seg.mk lastId (PathArgs.angle gargs))
      ∧ findContextBinding gargs = Option.some ctx
      ∧ stripped = segs.dropLast ++ [Seg.mk lastId PathArgs.none] := by
  unfold resolveSelfTy at h
  cases hl : segs.getLast? with
  | none => rw [hl] at h; cases h
  | some s =>
    rw [hl] at h
    cases s with
    | mk id args =>
      cases args with
      | none => dsimp only at h; cases h
      | angle gargs =>
        dsimp only at h
        cases hb : findContextBinding gargs with
        | none => rw [hb] at h; cases h
        | some ctx' =>
          rw [hb] at h
          cases h
          exact ⟨id, gargs, rfl, hb, rfl⟩

/-- Inversion of a successful `impl_gql_object` run, naming every part
of the output in terms of the input. -/
theorem impl_ok_inv {imp : ItemImpl} {o : Output}
    (h : impl_gql_object (Item.impl imp) = Except.ok o) :
    ∃ segs fns,
      imp.selfTy = Ty.path segs
      ∧ resolveSelfTy segs = Except.ok (o.name, o.context)
      ∧ processItems (executorRef o.context) imp.items
          = Except.ok (o.implBlock.items, fns)
      ∧ o.implBlock.selfTy = Ty.path o.name
      ∧ o.implBlock.attrs = []
      ∧ o.implBlock.modifiers = imp.modifiers
      ∧ o.implBlock.generics = imp.generics
      ∧ o.implBlock.traitRef = imp.traitRef
      ∧ o.typeDescription = (findGraphqlMap imp.attrs).map (fun m => mapGet m "description")
      ∧ o.registerStmts = fns.map mkRegisterStmt
      ∧ o.branches = fns.map mkDispatchBranch
      ∧ o.terminal = { typeName := "Mutation" } := by
  unfold impl_gql_object at h
  dsimp only at h
  cases hself : imp.selfTy with
  | ref l m e => rw [hself] at h; cases h
  | other s => rw [hself] at h; cases h
  | path segs =>
    rw [hself] at h
    dsimp only at h
    cases hres : resolveSelfTy segs with
    | error e => rw [hres] at h; cases h
    | ok rc =>
      rw [hres] at h
      dsimp only at h
      cases hpi : processItems (executorRef rc.2) imp.items with
      | error e => rw [hpi] at h; cases h
      | ok r =>
        rw [hpi] at h
        dsimp only at h
        cases h
        exact ⟨segs, r.2, rfl, hres, hpi, rfl, rfl, rfl, rfl, rfl, rfl, rfl,
          rfl, rfl⟩

/-- On a successful run, the accepted fields carry exactly the accepted
members' identifiers and non-first parameter patterns, in declaration
order. -/
theorem fns_idents {parsed : Ty} {items os : List ImplItem} {fns : List FieldFn}
    (h : processItems parsed items = Except.ok (os, fns)) :
    fns.map FieldFn.ident = acceptedIdents parsed items
    ∧ fns.map (fun f => f.args.map Prod.fst) = acceptedArgPats parsed items := by
  obtain ⟨-, hfns, hall⟩ := processItems_ok_spec h
  subst hfns
  constructor
  · rw [List.map_filterMap]
    apply List.filterMap_congr
    intro it hit
    have hok := hall it hit
    cases hp : processItem parsed it with
    | error e => rw [hp] at hok; cases hok
    | ok r =>
      have hfield : itemField parsed it = r.2 := by simp [itemField, hp]
      rw [hfield]
      exact (processItem_ok_spec hp).2.1
  · rw [List.map_filterMap]
    apply List.filterMap_congr
    intro it hit
    have hok := hall it hit
    cases hp : processItem parsed it with
    | error e => rw [hp] at hok; cases hok
    | ok r =>
      have hfield : itemField parsed it = r.2 := by simp [itemField, hp]
      rw [hfield]
      exact (processItem_ok_spec hp).2.2

/-! ## Claim theorems -/

/-- C1 (counterexample): the type-level directive map of `exC1a` binds
`context` to `DirectiveCtx`, yet the resolved context is the
binding-provided `BindingCtx`, a different type — the explicit directive
does not take precedence; and with only the directive present (`exC1b`)
compilation fails fatally instead of using the directive's value. -/
theorem C1_cex :
    (findGraphqlMap exC1a.attrs).map (fun m => mapGet m "context")
        = Option.some (Option.some "DirectiveCtx")
    ∧ (impl_gql_object (Item.impl exC1a)).map Output.context = Except.ok bindingCtxTy
    ∧ bindingCtxTy = Ty.path [Seg.mk "BindingCtx" PathArgs.none]
    ∧ "BindingCtx" ≠ "DirectiveCtx"
    ∧ impl_gql_object (Item.impl exC1b) = Except.error gqlObjectContextErr :=
  ⟨rfl, rfl, rfl, by decide, rfl⟩

/-- C1 (amended): context resolution uses only the `Context` binding in
the angle-bracketed generic arguments of the final path segment of the
implementing type: whatever the type-level attributes say, if the final
segment carries a `Context` binding its bound type is the resolved
context, and if it carries none, compilation fails fatally with the
context-required error. -/
theorem C1_amended (imp : ItemImpl) (segs : List Seg) (sLast : Seg)
    (h1 : imp.selfTy = Ty.path segs) (h2 : segs.getLast? = Option.some sLast) :
    (segContextBinding sLast).elim
      (impl_gql_object (Item.impl imp) = Except.error gqlObjectContextErr)
      (fun ctx => (impl_gql_object (Item.impl imp)).map Output.context
                    = (impl_gql_object (Item.impl imp)).map (Function.const Output ctx)) := by
  cases sLast with
  | mk id args =>
    cases args with
    | none =>
      have hres : resolveSelfTy segs = Except.error gqlObjectContextErr := by
        simp [resolveSelfTy, h2]
      simp only [segContextBinding, Option.elim]
      unfold impl_gql_object
      dsimp only
      rw [h1]
      dsimp only
      rw [hres]
    | angle gargs =>
      cases hb : findContextBinding gargs with
      | none =>
        have hres : resolveSelfTy segs = Except.error gqlObjectContextErr := by
          simp [resolveSelfTy, h2, hb]
        simp only [segContextBinding, hb, Option.elim]
        unfold impl_gql_object
        dsimp only
        rw [h1]
        dsimp only
        rw [hres]
      | some ctx =>
        have hres : resolveSelfTy segs
            = Except.ok (segs.dropLast ++ [Seg.mk id PathArgs.none], ctx) := by
          simp [resolveSelfTy, h2, hb]
        simp only [segContextBinding, hb, Option.elim]
        unfold impl_gql_object
        dsimp only
        rw [h1]
        dsimp only
        rw [hres]
        dsimp only
        cases hpi : processItems (executorRef ctx) imp.items with
        | error e => rfl
        | ok r => rfl

/-- Witness for C1 (amended): on `exC1a` (directive *and* binding) the
resolved context is the binding's `BindingCtx`. -/
theorem C1_amended_witness :
    (impl_gql_object (Item.impl exC1a)).map Output.context
      = (impl_gql_object (Item.impl exC1a)).map (Function.const Output bindingCtxTy) :=
  C1_amended exC1a
    [Seg.mk "Foo" (PathArgs.angle [GenArg.binding "Context" bindingCtxTy])]
    (Seg.mk "Foo" (PathArgs.angle [GenArg.binding "Context" bindingCtxTy]))
    rfl rfl

/-- C2: the claim says a zero-parameter member is silently skipped and
that reading the first parameter never aborts; the code indexes
`sig.decl.inputs[0]` unconditionally, so a zero-parameter member aborts
the whole expansion with an index-out-of-bounds panic. -/
theorem C2_zero_params_panics :
    impl_gql_object (Item.impl exC2) = Except.error indexOutOfBoundsErr := rfl

/-- C5: the terminal dispatch branch interpolates the runtime field name
but names the type with the hard-coded literal `"Mutation"`; on an impl
for type `Foo`, an unmatched field `bogus` panics with a message naming
`Mutation`, not the implementing type `Foo`. -/
theorem C5_terminal_names_mutation :
    (impl_gql_object (Item.impl exC5)).map
        (fun o => (pathStringify o.name,
                   runDispatch id o.branches o.terminal "bogus"))
      = Except.ok ("Foo", Except.error "Field bogus not found on type Mutation") := rfl

/-- C6 (counterexample): the skipped member of `exC6` carries a
`graphql` attribute in the input, but the re-emitted implementation
block holds it with an empty attribute list — the member does not appear
unmodified, its annotation metadata is stripped. -/
theorem C6_cex :
    exC6.items = [ImplItem.method [attrGqlDescr] helperSig "body"]
    ∧ (impl_gql_object (Item.impl exC6)).map (fun o => o.implBlock.items)
        = Except.ok [ImplItem.method [] helperSig "body"]
    ∧ (impl_gql_object (Item.impl exC6)).map (fun o => o.branches.length)
        = Except.ok 0
    ∧ [attrGqlDescr] ≠ ([] : List Attribute) :=
  ⟨rfl, rfl, rfl, by simp⟩

/-- C6 (amended): every member — skipped or accepted — appears in the
re-emitted implementation block in declaration order with its signature
and body unchanged but its annotation list cleared. -/
theorem C6_amended (imp : ItemImpl) (o : Output)
    (h : impl_gql_object (Item.impl imp) = Except.ok o) :
    o.implBlock.items = imp.items.map clearItemAttrs := by
  obtain ⟨segs, fns, -, -, hpi, -⟩ := impl_ok_inv h
  exact (processItems_ok_spec hpi).1

/-- Witness for C6 (amended): the annotated-but-skipped member of
`exC6` is re-emitted with its attribute list cleared. -/
theorem C6_amended_witness :
    (outOf (impl_gql_object (Item.impl exC6))).implBlock.items
      = exC6.items.map clearItemAttrs :=
  C6_amended exC6 (outOf (impl_gql_object (Item.impl exC6))) rfl

/-- C10: the re-emitted implementation block always carries an empty
type-level attribute list, whatever attributes the input block carried. -/
theorem C10_attrs_cleared (ast : Item) (o : Output)
    (h : impl_gql_object ast = Except.ok o) :
    o.implBlock.attrs = [] := by
  cases ast with
  | otherItem s => cases h
  | impl imp =>
    obtain ⟨segs, fns, -, -, -, -, hattrs, -⟩ := impl_ok_inv h
    exact hattrs

/-- Witness for C10: on `exE2E`, whose input block carries a `graphql`
attribute, the re-emitted block's attribute list is empty. -/
theorem C10_attrs_cleared_witness :
    (outOf (impl_gql_object (Item.impl exE2E))).implBlock.attrs = [] :=
  C10_attrs_cleared (Item.impl exE2E) (outOf (impl_gql_object (Item.impl exE2E))) rfl

/-- C3: for a member with a non-empty parameter list (all later
parameters in captured form), a field descriptor is produced exactly
when the first parameter matches the executor-reference shape and the
return type is explicit; a member failing either test is silently
skipped — no error, no field, the cleared member re-emitted. -/
theorem C3_admission (parsed : Ty) (attrs : List Attribute) (sig : MethodSig)
    (body : String) (first : FnArg) (rest : List FnArg)
    (h : sig.inputs = first :: rest)
    (hrest : ∀ a ∈ rest, isCapturedArg a = true) :
    (itemField parsed (ImplItem.method attrs sig body)).isSome
        = (firstMatches parsed first && hasExplicitRet sig.output)
    ∧ exceptIsOk (processItem parsed (ImplItem.method attrs sig body)) = true
    ∧ ((firstMatches parsed first = false ∨ sig.output = ReturnType.default) →
        processItem parsed (ImplItem.method attrs sig body)
          = Except.ok (ImplItem.method [] sig body, Option.none)) := by
  obtain ⟨args, hargs⟩ := collectArgs_ok_of_captured hrest
  by_cases hf : firstMatches parsed first = true
  · cases hout : sig.output with
    | ty ret =>
      refine ⟨?_, ?_, ?_⟩
      · simp [itemField, processItem, h, hf, hout, hargs, Except.map, hasExplicitRet]
      · simp [exceptIsOk, processItem, h, hf, hout, hargs, Except.map]
      · rintro (h1 | h1)
        · rw [h1] at hf; cases hf
        · exact absurd h1 (by simp [hout])
    | default =>
      refine ⟨?_, ?_, ?_⟩
      · simp [itemField, processItem, h, hf, hout, hasExplicitRet]
      · simp [exceptIsOk, processItem, h, hf, hout]
      · intro _; simp [processItem, h, hf, hout]
  · have hf' : firstMatches parsed first = false := by
      cases hq : firstMatches parsed first
      · rfl
      · exact absurd hq hf
    refine ⟨?_, ?_, ?_⟩
    · simp [itemField, processItem, h, hf', hasExplicitRet]
    · simp [exceptIsOk, processItem, h, hf']
    · intro _; simp [processItem, h, hf']

/-- Witness for C3: the accepted member `name(executor) -> String`
evaluates the admission test to `true` on both sides. -/
theorem C3_admission_witness :
    (itemField (executorRef ctxTy) (ImplItem.method [] nameSig "body")).isSome
        = (firstMatches (executorRef ctxTy) execArg && hasExplicitRet nameSig.output)
    ∧ exceptIsOk (processItem (executorRef ctxTy) (ImplItem.method [] nameSig "body")) = true
    ∧ ((firstMatches (executorRef ctxTy) execArg = false ∨ nameSig.output = ReturnType.default) →
        processItem (executorRef ctxTy) (ImplItem.method [] nameSig "body")
          = Except.ok (ImplItem.method [] nameSig "body", Option.none)) :=
  C3_admission (executorRef ctxTy) [] nameSig "body" execArg [] rfl (by simp)

/-- C4: the emitted field-registration statements, the emitted dispatch
branches and the accepted members of the source block share one order
(declaration order), and the emitted dispatch body puts the unconditional
terminal branch after every field branch. -/
theorem C4_order (imp : ItemImpl) (o : Output)
    (h : impl_gql_object (Item.impl imp) = Except.ok o) :
    o.registerStmts.map RegisterStmt.fieldName = o.branches.map DispatchBranch.fieldName
    ∧ o.branches.map DispatchBranch.fieldName
        = (acceptedIdents (executorRef o.context) imp.items).map NameExpr.camelCase
    ∧ (Output.dispatchStmts o).getLast? = Option.some (DispatchStmt.terminal o.terminal)
    ∧ (Output.dispatchStmts o).dropLast = o.branches.map DispatchStmt.branch := by
  obtain ⟨segs, fns, -, -, hpi, -, -, -, -, -, -, hreg, hbr, -⟩ := impl_ok_inv h
  obtain ⟨hid, -⟩ := fns_idents hpi
  refine ⟨?_, ?_, ?_, ?_⟩
  · rw [hreg, hbr]; simp [mkRegisterStmt, mkDispatchBranch]
  · rw [hbr, ← hid]; simp [mkDispatchBranch, List.map_map, Function.comp_def]
  · simp [Output.dispatchStmts, getLast?_append_singleton]
  · simp [Output.dispatchStmts, dropLast_append_singleton]

/-- Witness for C4: the two accepted members of `exE2E` appear in
declaration order in both artifacts, with the terminal branch last. -/
theorem C4_order_witness :
    (outOf (impl_gql_object (Item.impl exE2E))).registerStmts.map RegisterStmt.fieldName
        = (outOf (impl_gql_object (Item.impl exE2E))).branches.map DispatchBranch.fieldName
    ∧ (outOf (impl_gql_object (Item.impl exE2E))).branches.map DispatchBranch.fieldName
        = (acceptedIdents (executorRef (outOf (impl_gql_object (Item.impl exE2E))).context)
            exE2E.items).map NameExpr.camelCase
    ∧ (Output.dispatchStmts (outOf (impl_gql_object (Item.impl exE2E)))).getLast?
        = Option.some (DispatchStmt.terminal (outOf (impl_gql_object (Item.impl exE2E))).terminal)
    ∧ (Output.dispatchStmts (outOf (impl_gql_object (Item.impl exE2E)))).dropLast
        = (outOf (impl_gql_object (Item.impl exE2E))).branches.map DispatchStmt.branch :=
  C4_order exE2E (outOf (impl_gql_object (Item.impl exE2E))) rfl

/-- C7 (counterexample): the member `age(executor, (a, b): Pair) -> i32`
has a non-first parameter that destructures a tuple pattern — not the
simple named-typed form — yet expansion succeeds and the member produces
a field, instead of the claimed fatal error. -/
theorem C7_cex :
    tupleArgSig.inputs
        = [execArg, FnArg.captured (Pat.tuple ["a", "b"]) (Ty.path [Seg.mk "Pair" PathArgs.none])]
    ∧ (impl_gql_object (Item.impl exC7)).map (fun o => o.branches.map DispatchBranch.fieldName)
        = Except.ok [NameExpr.camelCase "age"]
    ∧ (impl_gql_object (Item.impl exC7)).map (fun o => o.registerStmts.length)
        = Except.ok 1 :=
  ⟨rfl, rfl, rfl⟩

/-- C7 (amended): associated constants, macro-bodied items, verbatim
items and associated types each panic the whole expansion; in a member
that has passed the first-parameter and return-type checks, any
non-first parameter not in `Captured` form panics — but a `Captured`
parameter with a destructuring pattern is accepted, and the parameters
of members skipped by the earlier checks are never examined.  Any such
per-item panic aborts the whole loop. -/
theorem C7_amended (parsed : Ty) :
    (∀ s, processItem parsed (ImplItem.constItem s) = Except.error "Unexpected const item")
    ∧ (∀ s, processItem parsed (ImplItem.macItem s) = Except.error "Unexpected macro item")
    ∧ (∀ s, processItem parsed (ImplItem.verbatimItem s) = Except.error "Unexpected verbatim item")
    ∧ (∀ s, processItem parsed (ImplItem.typeItem s) = Except.error "Unexpected type item")
    ∧ (∀ attrs sig body first rest, sig.inputs = first :: rest →
        firstMatches parsed first = true → hasExplicitRet sig.output = true →
        (∃ a ∈ rest, isCapturedArg a = false) →
        processItem parsed (ImplItem.method attrs sig body) = Except.error invalidArgErr)
    ∧ (∀ items it e, it ∈ items → processItem parsed it = Except.error e →
        ∃ e2, processItems parsed items = Except.error e2) := by
  refine ⟨fun s => rfl, fun s => rfl, fun s => rfl, fun s => rfl, ?_, ?_⟩
  · intro attrs sig body first rest hin hf hret hbad
    have hca := collectArgs_error_of_mem hbad
    cases hout : sig.output with
    | default => rw [hout] at hret; cases hret
    | ty ret => simp [processItem, hin, hf, hout, hca, Except.map]
  · intro items it e hmem herr
    exact processItems_error_of_mem hmem herr

/-- Witness for C7 (amended): a member with an `Ignored` second
parameter, matching first parameter and explicit return type panics with
the `invalid arg` message. -/
theorem C7_amended_witness :
    processItem (executorRef ctxTy) (ImplItem.method [] badArgSig "body")
      = Except.error invalidArgErr :=
  (C7_amended (executorRef ctxTy)).2.2.2.2.1 [] badArgSig "body" execArg
    [FnArg.ignored strTy] rfl rfl rfl ⟨FnArg.ignored strTy, by simp, rfl⟩

/-- C8: in both artifacts the field names are the casing function applied
to the accepted members' identifier text verbatim (in declaration
order), and in both artifacts the argument names are the same casing
function applied to the members' non-first argument patterns verbatim. -/
theorem C8_names (imp : ItemImpl) (o : Output)
    (h : impl_gql_object (Item.impl imp) = Except.ok o) :
    o.registerStmts.map RegisterStmt.fieldName
        = (acceptedIdents (executorRef o.context) imp.items).map NameExpr.camelCase
    ∧ o.branches.map DispatchBranch.fieldName
        = (acceptedIdents (executorRef o.context) imp.items).map NameExpr.camelCase
    ∧ o.registerStmts.map (fun r => r.args.map Prod.fst)
        = (acceptedArgPats (executorRef o.context) imp.items).map
            (fun ps => ps.map (fun p => NameExpr.camelCase (patStringify p)))
    ∧ o.branches.map (fun b => b.gets.map ArgGet.key)
        = (acceptedArgPats (executorRef o.context) imp.items).map
            (fun ps => ps.map (fun p => NameExpr.camelCase (patStringify p))) := by
  obtain ⟨segs, fns, -, -, hpi, -, -, -, -, -, -, hreg, hbr, -⟩ := impl_ok_inv h
  obtain ⟨hid, hargs⟩ := fns_idents hpi
  refine ⟨?_, ?_, ?_, ?_⟩
  · rw [hreg, ← hid]; simp [mkRegisterStmt, List.map_map, Function.comp_def]
  · rw [hbr, ← hid]; simp [mkDispatchBranch, List.map_map, Function.comp_def]
  · rw [hreg, ← hargs]; simp [mkRegisterStmt, List.map_map, Function.comp_def]
  · rw [hbr, ← hargs]; simp [mkDispatchBranch, List.map_map, Function.comp_def]

/-- Witness for C8: the names of `exE2E`'s two accepted members and of
`getAge`'s argument `unit` are cased identically in both artifacts. -/
theorem C8_names_witness :
    (outOf (impl_gql_object (Item.impl exE2E))).registerStmts.map RegisterStmt.fieldName
        = (acceptedIdents (executorRef (outOf (impl_gql_object (Item.impl exE2E))).context)
            exE2E.items).map NameExpr.camelCase
    ∧ (outOf (impl_gql_object (Item.impl exE2E))).branches.map DispatchBranch.fieldName
        = (acceptedIdents (executorRef (outOf (impl_gql_object (Item.impl exE2E))).context)
            exE2E.items).map NameExpr.camelCase
    ∧ (outOf (impl_gql_object (Item.impl exE2E))).registerStmts.map (fun r => r.args.map Prod.fst)
        = (acceptedArgPats (executorRef (outOf (impl_gql_object (Item.impl exE2E))).context)
            exE2E.items).map
            (fun ps => ps.map (fun p => NameExpr.camelCase (patStringify p)))
    ∧ (outOf (impl_gql_object (Item.impl exE2E))).branches.map (fun b => b.gets.map ArgGet.key)
        = (acceptedArgPats (executorRef (outOf (impl_gql_object (Item.impl exE2E))).context)
            exE2E.items).map
            (fun ps => ps.map (fun p => NameExpr.camelCase (patStringify p))) :=
  C8_names exE2E (outOf (impl_gql_object (Item.impl exE2E))) rfl

/-- C9: after a successful run the final segment of the implementing
type's path has had its generic-argument list cleared; every type-path
occurrence in the generated code (the re-emitted block's self type and
every `#name` slot) is that stripped path, whose final segment carries
no `Context` binding; and when no earlier segment carried a `Context`
binding (as in any valid source program), no segment of any emitted
occurrence carries one. -/
theorem C9_strip (imp : ItemImpl) (o : Output) (segs : List Seg)
    (h1 : imp.selfTy = Ty.path segs)
    (h : impl_gql_object (Item.impl imp) = Except.ok o) :
    (∃ lastId gargs,
        segs.getLast? = Option.some (Seg.mk lastId (PathArgs.angle gargs))
        ∧ o.name = segs.dropLast ++ [Seg.mk lastId PathArgs.none])
    ∧ o.implBlock.selfTy = Ty.path o.name
    ∧ (∀ p ∈ Output.generatedPaths o, p = o.name)
    ∧ (o.name.getLast?).map segHasContextBinding = Option.some false
    ∧ ((∀ s ∈ segs.dropLast, segHasContextBinding s = false) →
        ∀ p ∈ Output.generatedPaths o, ∀ s ∈ p, segHasContextBinding s = false) := by
  obtain ⟨segs', fns, hself, hres, -, hsty, -⟩ := impl_ok_inv h
  rw [h1] at hself
  cases hself
  obtain ⟨lastId, gargs, hl, hbind, hstrip⟩ := resolveSelfTy_ok hres
  have hpaths : Output.generatedPaths o = [o.name, o.name] := by
    simp [Output.generatedPaths, hsty]
  refine ⟨⟨lastId, gargs, hl, hstrip⟩, hsty, ?_, ?_, ?_⟩
  · intro p hp
    rw [hpaths] at hp
    simp only [List.mem_cons, List.not_mem_nil, or_false, or_self] at hp
    exact hp
  · rw [hstrip, getLast?_append_singleton]
    rfl
  · intro hdrop p hp s hs
    have hpn : p = o.name := by
      rw [hpaths] at hp
      simp only [List.mem_cons, List.not_mem_nil, or_false, or_self] at hp
      exact hp
    rw [hpn, hstrip] at hs
    rcases List.mem_append.mp hs with hs | hs
    · exact hdrop s hs
    · rw [List.mem_singleton] at hs
      subst hs
      rfl

/-- Witness for C9: on `exE2E` over `Foo<Context = Ctx>` the emitted
path is the bare `Foo` with no arguments on its final segment. -/
theorem C9_strip_witness :
    (∃ lastId gargs,
        [Seg.mk "Foo" (PathArgs.angle [GenArg.binding "Context" ctxTy])].getLast?
            = Option.some (Seg.mk lastId (PathArgs.angle gargs))
        ∧ (outOf (impl_gql_object (Item.impl exE2E))).name
            = [Seg.mk "Foo" (PathArgs.angle [GenArg.binding "Context" ctxTy])].dropLast
                ++ [Seg.mk lastId PathArgs.none])
    ∧ (outOf (impl_gql_object (Item.impl exE2E))).implBlock.selfTy
        = Ty.path (outOf (impl_gql_object (Item.impl exE2E))).name
    ∧ (∀ p ∈ Output.generatedPaths (outOf (impl_gql_object (Item.impl exE2E))),
        p = (outOf (impl_gql_object (Item.impl exE2E))).name)
    ∧ ((outOf (impl_gql_object (Item.impl exE2E))).name.getLast?).map segHasContextBinding
        = Option.some false
    ∧ ((∀ s ∈ [Seg.mk "Foo" (PathArgs.angle [GenArg.binding "Context" ctxTy])].dropLast,
          segHasContextBinding s = false) →
        ∀ p ∈ Output.generatedPaths (outOf (impl_gql_object (Item.impl exE2E))),
          ∀ s ∈ p, segHasContextBinding s = false) :=
  C9_strip exE2E (outOf (impl_gql_object (Item.impl exE2E)))
    [Seg.mk "Foo" (PathArgs.angle [GenArg.binding "Context" ctxTy])] rfl rfl

end JuniperGen
